import Mathlib

/-!
Verification of the mock stock-broker backend (`src/mockServer.js`):
the in-memory store, the price simulator (`randomPrice`, `initAccountData`,
the 1-second tick loop) and the path-routed query interface (`apiFetch`).

Prices are modelled as rationals; `toFixed(2)` becomes rounding to the
nearest multiple of 1/100 (round half up, which agrees with JS `toFixed`
on nonnegative values).  Each call to `Math.random()` is modelled as an
explicit parameter: a draw function keyed by account id and ticker, one
fresh function per tick.  Timestamps (`Date.now()`) are naturals passed in
explicitly.
-/

namespace StockBroker

/-- `+x.toFixed(2)`: round to 2 decimal places. -/
def round2 (x : ℚ) : ℚ := (round (100 * x) : ℤ) / 100

structure Company where
  id : String
  name : String
deriving DecidableEq, Repr

structure Account where
  id : String
  name : String
  stocks : List String
deriving DecidableEq, Repr

/-- One quote per (account, ticker): `{ ticker, price, change, updatedAt }`. -/
structure Quote where
  ticker : String
  price : ℚ
  change : ℚ
  updatedAt : ℕ
deriving DecidableEq, Repr

/-- The in-memory `store` object: companies, companyId → accounts,
accountId → quote list (the JS wraps the list as `{ stocks: ... }`). -/
structure Store where
  companies : List Company
  accounts : List (String × List Account)
  accountData : List (String × List Quote)
deriving DecidableEq, Repr

/-- The seeded company directory. -/
def seedCompanies : List Company :=
  [{ id := "c1", name := "Sumaiya Tech" },
   { id := "c2", name := "Fathima Holdings" }]

/-- The seeded company → accounts map. -/
def seedAccounts : List (String × List Account) :=
  [("c1",
    [{ id := "a1", name := "Sumaiya - Account 1", stocks := ["GOOG", "TSLA", "AMZN"] },
     { id := "a2", name := "Sumaiya - Account 2", stocks := ["META", "NVDA"] }]),
   ("c2",
    [{ id := "b1", name := "Fathima - Account 1", stocks := ["TSLA", "NVDA"] },
     { id := "b2", name := "Fathima - Account 2", stocks := ["GOOG", "AMZN", "META"] }])]

/-- The store as literally seeded in `createMockServer`, before
`initAccountData()` runs (`accountData: {}`). -/
def initialStore : Store :=
  { companies := seedCompanies, accounts := seedAccounts, accountData := [] }

/-- A source of `Math.random()` draws: one rational per (account id, ticker). -/
def Rnd : Type := String → String → ℚ

/-- Every draw of a valid random source lies in `[0, 1)`, as `Math.random()` does. -/
def RndValid (rnd : Rnd) : Prop := ∀ a t, 0 ≤ rnd a t ∧ rnd a t < 1

/-- `randomPrice(base)`: `+(base + Math.random() * base).toFixed(2)`,
with the `Math.random()` draw as the explicit argument `r`. -/
def randomPrice (base r : ℚ) : ℚ := round2 (base + r * base)

/-- `Object.values(store.accounts).flat()`. -/
def allAccounts (st : Store) : List Account := (st.accounts.map Prod.snd).flatten

/-- The quote list seeded for one account: one quote per subscribed ticker,
`price = randomPrice(100)`, `change = 0`, `updatedAt = now`. -/
def initQuotes (rnd : Rnd) (now : ℕ) (acc : Account) : List Quote :=
  acc.stocks.map (fun t =>
    { ticker := t, price := randomPrice 100 (rnd acc.id t), change := 0, updatedAt := now })

/-- `initAccountData()`: seeds `store.accountData[acc.id]` for every account. -/
def initAccountData (rnd : Rnd) (now : ℕ) (st : Store) : Store :=
  { st with accountData := (allAccounts st).map (fun acc => (acc.id, initQuotes rnd now acc)) }

/-- One quote's update inside the `setInterval` body:
`delta = (Math.random() - 0.5) * (price * 0.02)`,
`newPrice = max(0.01, +(price + delta).toFixed(2))`,
`change = +((newPrice - price).toFixed(2))`, `price = newPrice`, `updatedAt = now`. -/
def tickQuote (r : ℚ) (now : ℕ) (q : Quote) : Quote :=
  let delta := (r - 1/2) * (q.price * (2/100))
  let newPrice := max (1/100) (round2 (q.price + delta))
  { q with change := round2 (newPrice - q.price), price := newPrice, updatedAt := now }

/-- One firing of the `setInterval` callback: every quote of every account
is updated in place. -/
def tick (rnd : Rnd) (now : ℕ) (st : Store) : Store :=
  { st with accountData :=
      st.accountData.map (fun e => (e.1, e.2.map (fun q => tickQuote (rnd e.1 q.ticker) now q))) }

/-- Any finite number of tick firings, each with its own draws and timestamp. -/
def runTicks (ts : List (Rnd × ℕ)) (st : Store) : Store :=
  ts.foldl (fun s p => tick p.1 p.2 s) st

/-- `store.accounts[companyId] || []`. -/
def lookupAccounts (st : Store) (companyId : String) : List Account :=
  (st.accounts.lookup companyId).getD []

/-- `store.accountData[accountId] || { stocks: [] }`. -/
def lookupAccountData (st : Store) (accountId : String) : List Quote :=
  (st.accountData.lookup accountId).getD []

/-- The quote at position `i` of account `accId`, when both exist. -/
def getQuote (st : Store) (accId : String) (i : ℕ) : Option Quote :=
  (st.accountData.lookup accId).bind (fun qs => qs[i]?)

/-- Response bodies produced by `apiFetch`'s `json()` closures. -/
inductive Body where
  | companies (cs : List Company)
  | accounts (accs : List Account)
  | stocks (qs : List Quote)
  | err (msg : String)
deriving DecidableEq, Repr

/-- `{ status, json: () => body }`. -/
structure Response where
  status : ℕ
  body : Body
deriving DecidableEq, Repr

/-- `apiFetch(path)` after `url.pathname.split("/").filter(Boolean)`:
routing over the nonempty path segments.  The branch order and guards are
those of the source: `parts[2] === "accounts"` (resp. `"data"`) is the only
shape check past the first segment, so extra trailing segments still match. -/
def apiFetch (st : Store) (parts : List String) : Response :=
  if parts.get? 0 = some "companies" ∧ parts.length = 1 then
    { status := 200, body := .companies st.companies }
  else if parts.get? 0 = some "companies" ∧ parts.get? 2 = some "accounts" then
    { status := 200, body := .accounts (lookupAccounts st ((parts.get? 1).getD "")) }
  else if parts.get? 0 = some "accounts" ∧ parts.get? 2 = some "data" then
    { status := 200, body := .stocks (lookupAccountData st ((parts.get? 1).getD "")) }
  else
    { status := 404, body := .err "not found" }

/-- `split("/")` on the character list: segments between `/` separators,
empty segments included, as `"/a//b".split("/")` gives `["", "a", "", "b"]`. -/
def splitSegs : List Char → List (List Char)
  | [] => [[]]
  | c :: cs =>
    if c = '/' then [] :: splitSegs cs
    else
      match splitSegs cs with
      | s :: rest => (c :: s) :: rest
      | [] => [[c]]

/-- `pathname.split("/").filter(Boolean)`: the nonempty segments of a parsed
pathname. -/
def pathParts (pathname : String) : List String :=
  ((splitSegs pathname.toList).map (fun s => (⟨s⟩ : String))).filter (fun s => s ≠ "")

/-- A scheme's remaining characters and the text after the `:`.  Part of the
modelled URL constructor, see `urlPathname`. -/
def schemeSplit : List Char → Option (List Char × List Char)
  | [] => none
  | c :: cs =>
    if c == ':' then some ([], cs)
    else if c.isAlphanum || c == '+' || c == '-' || c == '.' then
      (schemeSplit cs).map (fun p => (c :: p.1, p.2))
    else none

/-- The `scheme` and post-`:` text of an input that starts with a URL scheme
(an ASCII letter, then letters/digits/`+`/`-`/`.` up to a `:`), the scheme
lower-cased; `none` when the input has no scheme and is a relative reference. -/
def splitScheme (s : String) : Option (String × String) :=
  match s.toList with
  | [] => none
  | c :: cs =>
    if c.isAlpha then
      (schemeSplit cs).map (fun p => (⟨(c :: p.1).map Char.toLower⟩, ⟨p.2⟩))
    else none

/-- Text up to the first `?` or `#`: a URL's query and fragment never reach
its pathname. -/
def takeUntilQF (s : String) : String :=
  ⟨s.toList.takeWhile (fun c => c ≠ '?' && c ≠ '#')⟩

/-- A pathname always starts with `/` on a special-scheme URL. -/
def ensureSlash (s : String) : String :=
  match s.toList with
  | '/' :: _ => s
  | _ => ⟨'/' :: s.toList⟩

/-- An authority's port is valid when empty (`http://h:` parses) or all
digits with value at most 65535 (`new URL("https://x:99999")` throws). -/
def validPort (port : List Char) : Bool :=
  port.isEmpty ||
    (port.all (fun c => c.isDigit) &&
      port.foldl (fun n c => n * 10 + (c.toNat - 48)) 0 ≤ 65535)

/-- The pathname of an absolute `http:`/`https:` input (the text after the
scheme's `:`), or `none` where the URL constructor throws: after `//` the
authority runs to the first `/`, `?` or `#`, and an empty host or an invalid
port is a parse failure — `new URL("http://")` throws a TypeError.  Without
`//` the special scheme matches the base's and the text resolves like a
relative reference.  (Userinfo, IPv6 hosts, backslash separators and path
normalization are beyond what any claim here touches and are not modelled.) -/
def specialPathname (rest : List Char) : Option String :=
  if rest.take 2 = ['/', '/'] then
    let afterSlashes := rest.drop 2
    let auth := afterSlashes.takeWhile (fun c => c ≠ '/' && c ≠ '?' && c ≠ '#')
    let tail : String := ⟨afterSlashes.drop auth.length⟩
    match auth.splitOn ':' with
    | [host] => if host.isEmpty then none else some (ensureSlash (takeUntilQF tail))
    | [host, port] =>
      if host.isEmpty || !(validPort port) then none
      else some (ensureSlash (takeUntilQF tail))
    | _ => none
  else
    some (ensureSlash (takeUntilQF ⟨rest⟩))

/-- Modelled from the spec: `new URL(path, "http://localhost").pathname`, the
platform URL constructor the source calls first — platform code, not code of
this repository.  A relative reference (no scheme) resolves against the base
and always succeeds, its pathname the input up to the first `?` or `#` with a
leading `/` ensured.  An `http:`/`https:` input is parsed as an absolute URL
and can fail (the constructor throws, modelled as `none`); any other scheme
is an opaque-path URL whose pathname is the text after the `:`, query and
fragment stripped. -/
def urlPathname (path : String) : Option String :=
  match splitScheme path with
  | none => some (ensureSlash (takeUntilQF path))
  | some (scheme, rest) =>
    if scheme == "http" || scheme == "https" then specialPathname rest.toList
    else some (takeUntilQF rest)

/-- `apiFetch(path)` on a raw path string, `new URL` parse included: either
the constructor throws (`none`, no response at all) or the routing runs on
the pathname's segments. -/
def apiFetchUrl (st : Store) (path : String) : Option Response :=
  (urlPathname path).map (fun pathname => apiFetch st (pathParts pathname))

/-- `apiFetch` as a state transition: it reads the store and writes nothing,
so the post-call state is the pre-call state (its body contains no assignment
to `store`). -/
def fetchStep (st : Store) (parts : List String) : Response × Store :=
  (apiFetch st parts, st)

/-- The three path patterns as the specification words them: exactly
`/companies`, `/companies/{companyId}/accounts`, `/accounts/{accountId}/data`. -/
def matchesPattern (parts : List String) : Prop :=
  parts = ["companies"] ∨ (∃ c, parts = ["companies", c, "accounts"]) ∨
    (∃ a, parts = ["accounts", a, "data"])

/-- The route-accepting condition actually tested by the code. -/
def recognized (parts : List String) : Prop :=
  (parts.get? 0 = some "companies" ∧ parts.length = 1) ∨
  (parts.get? 0 = some "companies" ∧ parts.get? 2 = some "accounts") ∨
  (parts.get? 0 = some "accounts" ∧ parts.get? 2 = some "data")

/-- Every quote in every account of the store has price at least 0.01. -/
def pricesOk (st : Store) : Prop :=
  ∀ e ∈ st.accountData, ∀ q ∈ e.2, (1/100 : ℚ) ≤ q.price

/-- Every price in the store is a whole number of cents, at least one cent. -/
def centPrices (st : Store) : Prop :=
  ∀ e ∈ st.accountData, ∀ q ∈ e.2, ∃ k : ℤ, 1 ≤ k ∧ q.price = (k : ℚ) / 100

/-! ### Arithmetic facts about `round2` -/

theorem round_mono {x y : ℚ} (h : x ≤ y) : round x ≤ round y := by
  rw [round_eq, round_eq]
  exact Int.floor_le_floor (by linarith)

theorem round2_intCast_div (k : ℤ) : round2 ((k : ℚ) / 100) = (k : ℚ) / 100 := by
  have h : (100 : ℚ) * ((k : ℚ) / 100) = (k : ℚ) := by ring
  rw [round2, h, round_intCast]

theorem abs_sub_round2 (x : ℚ) : |x - round2 x| ≤ 1 / 200 := by
  have h := abs_sub_round (α := ℚ) (100 * x)
  rw [round2]
  have hx : x - ((round (100 * x) : ℤ) : ℚ) / 100 = (100 * x - (round (100 * x) : ℤ)) / 100 := by
    ring
  rw [hx, abs_div]
  rw [show |(100 : ℚ)| = 100 by norm_num]
  linarith

theorem round2_mono {x y : ℚ} (h : x ≤ y) : round2 x ≤ round2 y := by
  have := round_mono (x := 100 * x) (y := 100 * y) (by linarith)
  rw [round2, round2]
  have : ((round (100 * x) : ℤ) : ℚ) ≤ ((round (100 * y) : ℤ) : ℚ) := by exact_mod_cast this
  linarith

/-- `round2` always lands on a whole number of cents. -/
theorem round2_cents (x : ℚ) : ∃ m : ℤ, round2 x = (m : ℚ) / 100 :=
  ⟨round (100 * x), rfl⟩

/-! ### Association-list lookup under a key-dependent map -/

theorem lookup_map_keyed {α β : Type} (f : String → α → β) (k : String) :
    ∀ m : List (String × α),
      (m.map (fun e => (e.1, f e.1 e.2))).lookup k = (m.lookup k).map (f k)
  | [] => rfl
  | e :: m => by
    by_cases h : k == e.1
    · simp only [List.map_cons, List.lookup, h]
      rw [eq_of_beq h]
      rfl
    · simp only [List.map_cons, List.lookup, h]
      exact lookup_map_keyed f k m

theorem lookup_map_eq_some {α β : Type} (key : α → String) (val : α → β) (k : String) :
    ∀ (l : List α) (v : β),
      (l.map (fun a => (key a, val a))).lookup k = some v → ∃ a, a ∈ l ∧ v = val a
  | [], v => by intro h; simp [List.lookup] at h
  | a :: l, v => by
    by_cases h : k == key a
    · simp only [List.map_cons, List.lookup, h]
      intro hv
      exact ⟨a, List.mem_cons_self a l, (Option.some_inj.mp hv).symm⟩
    · simp only [List.map_cons, List.lookup, h]
      intro hv
      obtain ⟨b, hb, hv⟩ := lookup_map_eq_some key val k l v hv
      exact ⟨b, List.mem_cons_of_mem a hb, hv⟩

/-! ### The price floor -/

theorem tickQuote_price_ge (r : ℚ) (now : ℕ) (q : Quote) :
    (1 / 100 : ℚ) ≤ (tickQuote r now q).price :=
  le_max_left _ _

theorem pricesOk_tick (rnd : Rnd) (now : ℕ) (st : Store) : pricesOk (tick rnd now st) := by
  intro e he q hq
  simp only [tick, List.mem_map] at he
  obtain ⟨e0, _, rfl⟩ := he
  simp only [List.mem_map] at hq
  obtain ⟨q0, _, rfl⟩ := hq
  exact tickQuote_price_ge _ _ _

theorem round2_hundred : round2 (100 : ℚ) = 100 := by
  rw [round2, round_eq]
  norm_num

theorem randomPrice_ge {r : ℚ} (h0 : 0 ≤ r) : (100 : ℚ) ≤ randomPrice 100 r := by
  have h2 : round2 (100 : ℚ) ≤ round2 (100 + r * 100) := round2_mono (by nlinarith)
  rw [round2_hundred] at h2
  exact h2

theorem pricesOk_init (rnd : Rnd) (now0 : ℕ) (st : Store) (h : ∀ a t, 0 ≤ rnd a t) :
    pricesOk (initAccountData rnd now0 st) := by
  intro e he q hq
  simp only [initAccountData, List.mem_map] at he
  obtain ⟨acc, _, rfl⟩ := he
  simp only [initQuotes, List.mem_map] at hq
  obtain ⟨t, _, rfl⟩ := hq
  have := randomPrice_ge (h acc.id t)
  simp only []
  linarith

theorem pricesOk_runTicks (ts : List (Rnd × ℕ)) (st : Store) (h : pricesOk st) :
    pricesOk (runTicks ts st) := by
  induction ts generalizing st with
  | nil => exact h
  | cons p ts ih => exact ih _ (pricesOk_tick p.1 p.2 st)

/-- C1: for every quote in every account, at initialization and after any
number of tick() invocations, the quote's price is at least 0.01 (the floor
clamp holds on every update). -/
theorem init_and_ticks_price_floor (rnd0 : Rnd) (now0 : ℕ) (ts : List (Rnd × ℕ))
    (h : ∀ a t, 0 ≤ rnd0 a t) :
    pricesOk (runTicks ts (initAccountData rnd0 now0 initialStore)) :=
  pricesOk_runTicks ts _ (pricesOk_init rnd0 now0 initialStore h)

theorem init_and_ticks_price_floor_witness :
    pricesOk (runTicks [] (initAccountData (fun _ _ => 0) 0 initialStore)) :=
  init_and_ticks_price_floor (fun _ _ => 0) 0 [] (fun _ _ => le_refl 0)

/-! ### The change field -/

theorem lookup_tick (rnd : Rnd) (now : ℕ) (k : String) :
    ∀ m : List (String × List Quote),
      (m.map (fun e => (e.1, e.2.map (fun q => tickQuote (rnd e.1 q.ticker) now q)))).lookup k =
        (m.lookup k).map (fun qs => qs.map (fun q => tickQuote (rnd k q.ticker) now q))
  | [] => rfl
  | e :: m => by
    by_cases h : k == e.1
    · simp only [List.map_cons, List.lookup, h]
      rw [eq_of_beq h]
      rfl
    · simp only [List.map_cons, List.lookup, h]
      exact lookup_tick rnd now k m

theorem getQuote_tick (rnd : Rnd) (now : ℕ) (st : Store) (accId : String) (i : ℕ) :
    getQuote (tick rnd now st) accId i =
      (getQuote st accId i).map (fun q => tickQuote (rnd accId q.ticker) now q) := by
  simp only [getQuote, tick]
  rw [lookup_tick rnd now accId st.accountData]
  cases h : st.accountData.lookup accId with
  | none => rfl
  | some qs => simp [List.getElem?_map]

theorem tickQuote_change (r : ℚ) (now : ℕ) (q : Quote) :
    (tickQuote r now q).change = round2 ((tickQuote r now q).price - q.price) := rfl

/-- Every quote read back from a freshly initialized store is one of the
seeded quotes: some subscribed ticker of some account, at `randomPrice(100)`. -/
theorem getQuote_init (rnd : Rnd) (now : ℕ) (st : Store) (accId : String) (i : ℕ)
    (q : Quote) (h : getQuote (initAccountData rnd now st) accId i = some q) :
    ∃ acc ∈ allAccounts st, ∃ t ∈ acc.stocks,
      q = { ticker := t, price := randomPrice 100 (rnd acc.id t), change := 0,
            updatedAt := now } := by
  simp only [getQuote, initAccountData] at h
  cases hl : ((allAccounts st).map fun acc => (acc.id, initQuotes rnd now acc)).lookup accId with
  | none => rw [hl] at h; exact absurd h (by simp)
  | some qs =>
    rw [hl] at h
    obtain ⟨acc, hacc, rfl⟩ :=
      lookup_map_eq_some Account.id (initQuotes rnd now) accId (allAccounts st) qs hl
    have hq : q ∈ initQuotes rnd now acc := List.getElem?_mem h
    simp only [initQuotes, List.mem_map] at hq
    obtain ⟨t, ht, rfl⟩ := hq
    exact ⟨acc, hacc, t, ht, rfl⟩

theorem initQuote_change (rnd : Rnd) (now : ℕ) (st : Store) (accId : String) (i : ℕ)
    (q : Quote) (h : getQuote (initAccountData rnd now st) accId i = some q) :
    q.change = 0 := by
  obtain ⟨acc, _, t, _, rfl⟩ := getQuote_init rnd now st accId i q h
  rfl

/-- C2: for every quote, after each tick() the quote's change field equals
round(price_after − price_before, 2) exactly, where price_before is the price
immediately before that tick and price_after the new clamped, rounded price;
at initialization change equals 0. -/
theorem change_eq_round_diff :
    (∀ (rnd : Rnd) (now : ℕ) (st : Store) (accId : String) (i : ℕ) (q q' : Quote),
        getQuote st accId i = some q → getQuote (tick rnd now st) accId i = some q' →
        q'.change = round2 (q'.price - q.price)) ∧
    (∀ (rnd : Rnd) (now : ℕ) (st : Store) (accId : String) (i : ℕ) (q : Quote),
        getQuote (initAccountData rnd now st) accId i = some q → q.change = 0) := by
  constructor
  · intro rnd now st accId i q q' hq hq'
    rw [getQuote_tick, hq] at hq'
    have : q' = tickQuote (rnd accId q.ticker) now q := (Option.some_inj.mp hq').symm
    subst this
    exact tickQuote_change _ _ _
  · exact fun rnd now st accId i q h => initQuote_change rnd now st accId i q h

/-! ### Routing -/

/-- C3: for every unknown company id the accounts lookup returns an empty
sequence with success status, and for every unknown account id the data lookup
returns an empty quote sequence with success status; neither produces an error
for an unknown id. -/
theorem unknown_ids_empty_success (st : Store) (cid aid : String)
    (hc : st.accounts.lookup cid = none) (ha : st.accountData.lookup aid = none) :
    apiFetch st ["companies", cid, "accounts"] = { status := 200, body := .accounts [] } ∧
    apiFetch st ["accounts", aid, "data"] = { status := 200, body := .stocks [] } := by
  constructor
  · simp [apiFetch, lookupAccounts, hc]
  · simp [apiFetch, lookupAccountData, ha]

theorem unknown_ids_empty_success_witness :
    apiFetch (initAccountData (fun _ _ => 0) 0 initialStore) ["companies", "zzz", "accounts"] =
        { status := 200, body := .accounts [] } ∧
      apiFetch (initAccountData (fun _ _ => 0) 0 initialStore) ["accounts", "zzz", "data"] =
        { status := 200, body := .stocks [] } :=
  unknown_ids_empty_success (initAccountData (fun _ _ => 0) 0 initialStore) "zzz" "zzz"
    (by simp [initAccountData, initialStore, seedAccounts, List.lookup])
    (by simp [initAccountData, allAccounts, initialStore, seedAccounts, List.lookup])

/-- C4, counterexample: `/companies/c1/accounts/x` matches none of the three
recognized patterns, yet `apiFetch` answers it with status 200, not 404. -/
theorem companies_extra_segment_200 :
    ¬ matchesPattern ["companies", "c1", "accounts", "x"] ∧
    (apiFetch initialStore ["companies", "c1", "accounts", "x"]).status = 200 :=
  ⟨by simp [matchesPattern], by decide⟩

/-- C4 (amended): every request whose path segments fail the code's route
guards — exactly `["companies"]`, or first segment `"companies"` with third
segment `"accounts"`, or first segment `"accounts"` with third segment
`"data"` (extra trailing segments are accepted) — gets status 404 with body
`{ error: "not found" }`. -/
theorem unrecognized_404 (st : Store) (parts : List String) (h : ¬ recognized parts) :
    apiFetch st parts = { status := 404, body := .err "not found" } := by
  simp only [recognized, not_or] at h
  obtain ⟨h1, h2, h3⟩ := h
  simp only [apiFetch, if_neg h1, if_neg h2, if_neg h3]

theorem unrecognized_404_witness :
    apiFetch initialStore ["unknown", "path"] = { status := 404, body := .err "not found" } :=
  unrecognized_404 initialStore ["unknown", "path"] (by simp [recognized])

/-- C9: `apiFetch` is a pure read of the store — the state after a call is the
state before it — so two immediately successive calls with no intervening tick
return identical responses (identical price, change and updatedAt values). -/
theorem fetch_twice_same (st : Store) (parts : List String) :
    (fetchStep (fetchStep st parts).2 parts).1 = (fetchStep st parts).1 ∧
    (fetchStep st parts).2 = st :=
  ⟨rfl, rfl⟩

theorem apiFetch_status (st : Store) (parts : List String) :
    (apiFetch st parts).status = 200 ∨ (apiFetch st parts).status = 404 := by
  unfold apiFetch
  split_ifs <;> simp

/-- C10, counterexample: on the input `"http://"` the URL constructor throws
(empty host on a special scheme), so `apiFetch` rejects with no response at
all — no status 200 or 404 is ever produced for that path string. -/
theorem url_parse_throws_no_response :
    urlPathname "http://" = none ∧ apiFetchUrl initialStore "http://" = none := by
  constructor <;> decide

/-- C10 (amended): for every input path string the URL constructor accepts,
`apiFetch` returns a well-formed response whose status is 200 or 404, and
every request matching one of the three recognized patterns gets status 200 —
in particular unknown company or account ids still get 200.  For a path
string the constructor rejects (such as `"http://"`), the TypeError
propagates and no response is produced.  The last conjunct runs one accepted
path end to end, query string stripped. -/
theorem apiFetch_status_total_parsed :
    (∀ (st : Store) (path : String) (resp : Response),
        apiFetchUrl st path = some resp →
        resp.status = 200 ∨ resp.status = 404) ∧
    (∀ (st : Store) (parts : List String),
        matchesPattern parts → (apiFetch st parts).status = 200) ∧
    apiFetchUrl initialStore "/companies?sort=name" =
      some { status := 200, body := .companies seedCompanies } := by
  refine ⟨?_, ?_, by decide⟩
  · intro st path resp h
    unfold apiFetchUrl at h
    cases hp : urlPathname path with
    | none => rw [hp] at h; exact absurd h (by simp)
    | some p =>
      rw [hp] at h
      have h2 : some (apiFetch st (pathParts p)) = some resp := h
      rw [← Option.some_inj.mp h2]
      exact apiFetch_status st (pathParts p)
  · intro st parts h
    rcases h with h | ⟨c, h⟩ | ⟨a, h⟩ <;> subst h <;> simp [apiFetch]

/-! ### The seeded price range -/

theorem round2_twoHundred : round2 (200 : ℚ) = 200 := by
  rw [round2, round_eq]
  norm_num

theorem randomPrice_le {r : ℚ} (h1 : r < 1) : randomPrice 100 r ≤ 200 := by
  have h2 : round2 (100 + r * 100) ≤ round2 (200 : ℚ) := round2_mono (by nlinarith)
  rw [round2_twoHundred] at h2
  exact h2

/-- C5, counterexample: the valid `Math.random()` draw 0.99999 makes a seeded
quote's price exactly 200.00, which lies outside [100, 200). -/
theorem init_price_can_reach_200 :
    (0 ≤ (99999 / 100000 : ℚ) ∧ (99999 / 100000 : ℚ) < 1) ∧
    (getQuote (initAccountData (fun _ _ => 99999 / 100000) 0 initialStore) "a1" 0).map
        Quote.price = some 200 ∧
    ¬ ((200 : ℚ) < 200) := by
  refine ⟨⟨by norm_num, by norm_num⟩, ?_, by norm_num⟩
  simp [getQuote, initAccountData, allAccounts, initialStore, seedAccounts, initQuotes,
    List.lookup, randomPrice, round2, round_eq]
  norm_num

/-- C5 (amended): after initialize() with the default base of 100 and draws in
[0, 1), every quote's price lies in the closed interval [100, 200]: the raw
value base + r·base lies in [100, 200), but rounding it to 2 decimal places
can land on 200.00 exactly. -/
theorem init_price_range (rnd : Rnd) (now : ℕ) (accId : String) (i : ℕ) (q : Quote)
    (hr : RndValid rnd)
    (h : getQuote (initAccountData rnd now initialStore) accId i = some q) :
    100 ≤ q.price ∧ q.price ≤ 200 := by
  obtain ⟨acc, _, t, _, rfl⟩ := getQuote_init rnd now initialStore accId i q h
  exact ⟨randomPrice_ge (hr acc.id t).1, randomPrice_le (hr acc.id t).2⟩

theorem init_price_range_witness : (100 : ℚ) ≤ 100 ∧ (100 : ℚ) ≤ 200 := by
  have h : getQuote (initAccountData (fun _ _ => 0) 0 initialStore) "a1" 0 =
      some { ticker := "GOOG", price := 100, change := 0, updatedAt := 0 } := by
    simp [getQuote, initAccountData, allAccounts, initialStore, seedAccounts, initQuotes,
      List.lookup, randomPrice, round2, round_eq]
    norm_num
  have := init_price_range (fun _ _ => 0) 0 "a1" 0
    { ticker := "GOOG", price := 100, change := 0, updatedAt := 0 }
    (fun _ _ => ⟨le_refl 0, by norm_num⟩) h
  exact this

/-! ### Quote count and ticker order -/

/-- The ticker sequence an account's data endpoint serves. -/
def tickersOf (st : Store) (aid : String) : List String :=
  (lookupAccountData st aid).map Quote.ticker

theorem tickQuote_ticker (r : ℚ) (now : ℕ) (q : Quote) :
    (tickQuote r now q).ticker = q.ticker := rfl

theorem tickersOf_tick (rnd : Rnd) (now : ℕ) (st : Store) (aid : String) :
    tickersOf (tick rnd now st) aid = tickersOf st aid := by
  simp only [tickersOf, lookupAccountData, tick]
  rw [lookup_tick rnd now aid st.accountData]
  cases h : st.accountData.lookup aid with
  | none => rfl
  | some qs => simp [List.map_map, Function.comp_def, tickQuote_ticker]

theorem tickersOf_runTicks (ts : List (Rnd × ℕ)) (st : Store) (aid : String) :
    tickersOf (runTicks ts st) aid = tickersOf st aid := by
  induction ts generalizing st with
  | nil => rfl
  | cons p ts ih => rw [runTicks, List.foldl_cons, ← runTicks, ih, tickersOf_tick]

theorem tickersOf_init (rnd : Rnd) (now : ℕ) (acc : Account)
    (hacc : acc ∈ allAccounts initialStore) :
    tickersOf (initAccountData rnd now initialStore) acc.id = acc.stocks := by
  fin_cases hacc <;>
    simp [tickersOf, lookupAccountData, initAccountData, allAccounts, initialStore,
      seedAccounts, initQuotes, List.lookup, List.map_map, Function.comp_def]

/-- C7: for every known account id, the served quote sequence has exactly one
quote per subscribed ticker, in the order of the account's ticker list recorded
at initialization, and this is unchanged by any number of ticks — tick()
touches only price, change and updatedAt, never the ticker or the sequence
structure. -/
theorem quotes_match_subscriptions (rnd0 : Rnd) (now0 : ℕ) (ts : List (Rnd × ℕ))
    (acc : Account) (hacc : acc ∈ allAccounts initialStore) :
    tickersOf (runTicks ts (initAccountData rnd0 now0 initialStore)) acc.id = acc.stocks := by
  rw [tickersOf_runTicks, tickersOf_init rnd0 now0 acc hacc]

theorem quotes_match_subscriptions_witness :
    tickersOf (runTicks [] (initAccountData (fun _ _ => 0) 0 initialStore))
        ({ id := "a1", name := "Sumaiya - Account 1",
           stocks := ["GOOG", "TSLA", "AMZN"] } : Account).id =
      ({ id := "a1", name := "Sumaiya - Account 1",
         stocks := ["GOOG", "TSLA", "AMZN"] } : Account).stocks :=
  quotes_match_subscriptions (fun _ _ => 0) 0 [] _ (by decide)

/-! ### No rejection of a non-positive base -/

/-- C8: the code has no configuration-time validation: `randomPrice` applied to
the non-positive base 0 (with the draw 0.5) returns the price 0 instead of
failing, violating the price ≥ 0.01 floor the data model promises. -/
theorem randomPrice_base_zero :
    randomPrice 0 (1/2) = 0 ∧ ¬ ((1/100 : ℚ) ≤ randomPrice 0 (1/2)) := by
  have h : randomPrice 0 (1/2) = 0 := by
    rw [randomPrice, round2, round_eq]
    norm_num
  rw [h]
  norm_num

/-! ### Tick moves a price by at most two percent -/

theorem tick_price_core (r : ℚ) (k : ℤ) (h0 : 0 ≤ r) (h1 : r < 1) (hk : 1 ≤ k) :
    |max (1/100) (round2 ((k:ℚ)/100 + (r - 1/2) * (((k:ℚ)/100) * (2/100)))) - (k:ℚ)/100|
      ≤ (2/100) * ((k:ℚ)/100) := by
  have hk1 : (1:ℚ) ≤ (k:ℚ) := by exact_mod_cast hk
  set x : ℚ := (k:ℚ)/100 + (r - 1/2) * (((k:ℚ)/100) * (2/100)) with hx
  have h100x : 100 * x = (k:ℚ) + (r - 1/2) * ((k:ℚ)/50) := by rw [hx]; ring
  have hs_lo : -((k:ℚ)/100) ≤ (r - 1/2) * ((k:ℚ)/50) := by nlinarith
  have hs_hi : (r - 1/2) * ((k:ℚ)/50) < (k:ℚ)/100 := by nlinarith
  rcases le_or_lt k 50 with hcase | hcase
  · have hkq50 : (k:ℚ) ≤ 50 := by exact_mod_cast hcase
    have hm : round (100 * x) = k := by
      rw [round_eq, Int.floor_eq_iff]
      refine ⟨by rw [h100x]; linarith, by rw [h100x]; linarith⟩
    have hr2 : round2 x = (k:ℚ)/100 := by rw [round2, hm]
    rw [hr2, max_eq_right (by linarith : (1/100:ℚ) ≤ (k:ℚ)/100), sub_self, abs_zero]
    positivity
  · have hkq51 : (51:ℚ) ≤ (k:ℚ) := by exact_mod_cast hcase
    have habs := abs_sub_round (α := ℚ) (100 * x)
    have habs2 : |100 * x - (k:ℚ)| ≤ (k:ℚ)/100 := by
      rw [h100x, add_sub_cancel_left, abs_le]
      exact ⟨by linarith, by linarith⟩
    set m : ℤ := round (100 * x) with hmdef
    have htri : |(m:ℚ) - (k:ℚ)| ≤ |(m:ℚ) - 100 * x| + |100 * x - (k:ℚ)| := abs_sub_le _ _ _
    have hcomm : |(m:ℚ) - 100 * x| = |100 * x - (m:ℚ)| := abs_sub_comm _ _
    have hmk : |(m:ℚ) - (k:ℚ)| ≤ 2 * (k:ℚ)/100 := by
      rw [hcomm] at htri
      linarith
    have hmk' := abs_le.mp hmk
    have hge : (1/100:ℚ) ≤ (m:ℚ)/100 := by linarith
    have hr2 : round2 x = (m:ℚ)/100 := by rw [round2, hmdef]
    rw [hr2, max_eq_right hge, abs_le]
    exact ⟨by linarith, by linarith⟩

theorem tickQuote_within (r : ℚ) (now : ℕ) (q : Quote) (k : ℤ)
    (h0 : 0 ≤ r) (h1 : r < 1) (hk : 1 ≤ k) (hp : q.price = (k:ℚ)/100) :
    |(tickQuote r now q).price - q.price| ≤ (2/100) * q.price ∧
    (1/100 : ℚ) ≤ (tickQuote r now q).price := by
  refine ⟨?_, tickQuote_price_ge r now q⟩
  have hprice : (tickQuote r now q).price =
      max (1/100) (round2 (q.price + (r - 1/2) * (q.price * (2/100)))) := rfl
  rw [hprice, hp]
  exact tick_price_core r k h0 h1 hk

theorem mem_of_lookup {α : Type} {k : String} {v : α} :
    ∀ {m : List (String × α)}, m.lookup k = some v → (k, v) ∈ m
  | [], h => by simp [List.lookup] at h
  | e :: m, h => by
    by_cases hb : k == e.1
    · simp only [List.lookup, hb] at h
      rw [eq_of_beq hb, ← Option.some_inj.mp h]
      exact List.mem_cons_self e m
    · simp only [List.lookup, hb] at h
      exact List.mem_cons_of_mem _ (mem_of_lookup h)

theorem centPrices_init (rnd : Rnd) (now : ℕ) (st : Store) (h : ∀ a t, 0 ≤ rnd a t) :
    centPrices (initAccountData rnd now st) := by
  intro e he q hq
  simp only [initAccountData, List.mem_map] at he
  obtain ⟨acc, _, rfl⟩ := he
  simp only [initQuotes, List.mem_map] at hq
  obtain ⟨t, _, rfl⟩ := hq
  obtain ⟨m, hm⟩ := round2_cents (100 + rnd acc.id t * 100)
  have h100 := randomPrice_ge (h acc.id t)
  rw [show randomPrice 100 (rnd acc.id t) = round2 (100 + rnd acc.id t * 100) from rfl, hm]
    at h100
  refine ⟨m, ?_, hm⟩
  have hm2 : (10000:ℚ) ≤ (m:ℚ) := by linarith
  have : (1:ℚ) ≤ (m:ℚ) := by linarith
  exact_mod_cast this

theorem centPrices_tick (rnd : Rnd) (now : ℕ) (st : Store) : centPrices (tick rnd now st) := by
  intro e he q hq
  simp only [tick, List.mem_map] at he
  obtain ⟨e0, _, rfl⟩ := he
  simp only [List.mem_map] at hq
  obtain ⟨q0, _, rfl⟩ := hq
  obtain ⟨m, hm⟩ :=
    round2_cents (q0.price + (rnd e0.1 q0.ticker - 1/2) * (q0.price * (2/100)))
  refine ⟨max 1 m, le_max_left _ _, ?_⟩
  show max (1/100) (round2 _) = _
  rw [hm, show ((max 1 m : ℤ):ℚ) = max (1:ℚ) (m:ℚ) by push_cast; rfl,
    ← max_div_div_right (by norm_num : (0:ℚ) ≤ 100) 1 (m:ℚ)]

theorem centPrices_runTicks (ts : List (Rnd × ℕ)) (st : Store) (h : centPrices st) :
    centPrices (runTicks ts st) := by
  induction ts generalizing st with
  | nil => exact h
  | cons p ts ih => exact ih _ (centPrices_tick p.1 p.2 st)

/-- C6: for every quote of the running store, one further tick() moves its
price by at most 2% of the pre-tick price (the perturbation delta itself is at
most 1% of the current price before clamping and rounding; rounding can add up
to half a cent, absorbed by the 2% bound), and the new price is at least 0.01. -/
theorem tick_price_within_two_percent (rnd0 : Rnd) (now0 : ℕ) (ts : List (Rnd × ℕ))
    (rnd : Rnd) (now : ℕ) (accId : String) (i : ℕ) (q q' : Quote)
    (hr : RndValid rnd) (h0 : ∀ a t, 0 ≤ rnd0 a t)
    (hq : getQuote (runTicks ts (initAccountData rnd0 now0 initialStore)) accId i = some q)
    (hq' : getQuote (tick rnd now (runTicks ts (initAccountData rnd0 now0 initialStore)))
      accId i = some q') :
    |q'.price - q.price| ≤ (2/100) * q.price ∧ (1/100 : ℚ) ≤ q'.price := by
  have hcent : centPrices (runTicks ts (initAccountData rnd0 now0 initialStore)) :=
    centPrices_runTicks _ _ (centPrices_init rnd0 now0 initialStore h0)
  rw [getQuote_tick, hq] at hq'
  have hq'eq : q' = tickQuote (rnd accId q.ticker) now q := (Option.some_inj.mp hq').symm
  have hq2 := hq
  simp only [getQuote] at hq2
  cases hl : (runTicks ts (initAccountData rnd0 now0 initialStore)).accountData.lookup accId with
  | none => rw [hl] at hq2; exact absurd hq2 (by simp)
  | some qs =>
    rw [hl, Option.some_bind] at hq2
    have hqmem : q ∈ qs := List.getElem?_mem hq2
    obtain ⟨k, hk1, hkp⟩ := hcent _ (mem_of_lookup hl) q hqmem
    subst hq'eq
    exact tickQuote_within _ now q k (hr accId q.ticker).1 (hr accId q.ticker).2 hk1 hkp

theorem tick_witness_h1 :
    getQuote (runTicks [] (initAccountData (fun _ _ => 0) 0 initialStore)) "a1" 0 =
      some { ticker := "GOOG", price := 100, change := 0, updatedAt := 0 } := by
  show getQuote (initAccountData (fun _ _ => 0) 0 initialStore) "a1" 0 = _
  simp [getQuote, initAccountData, allAccounts, initialStore, seedAccounts, initQuotes,
    List.lookup, randomPrice, round2, round_eq]
  norm_num

theorem tick_witness_h2 :
    getQuote (tick (fun _ _ => 1/2) 1 (runTicks [] (initAccountData (fun _ _ => 0) 0
      initialStore))) "a1" 0 =
      some { ticker := "GOOG", price := 100, change := 0, updatedAt := 1 } := by
  have h : tickQuote (1/2) 1 { ticker := "GOOG", price := 100, change := 0, updatedAt := 0 } =
      { ticker := "GOOG", price := 100, change := 0, updatedAt := 1 } := by
    simp [tickQuote, round2, round_eq]
    norm_num
  rw [getQuote_tick, tick_witness_h1]
  exact congrArg some h

theorem tick_price_within_two_percent_witness :
    |(100:ℚ) - 100| ≤ (2/100) * 100 ∧ (1/100 : ℚ) ≤ 100 :=
  tick_price_within_two_percent (fun _ _ => 0) 0 [] (fun _ _ => 1/2) 1 "a1" 0
    { ticker := "GOOG", price := 100, change := 0, updatedAt := 0 }
    { ticker := "GOOG", price := 100, change := 0, updatedAt := 1 }
    (fun _ _ => ⟨by norm_num, by norm_num⟩) (fun _ _ => le_refl 0)
    tick_witness_h1 tick_witness_h2

end StockBroker
